import Mathlib

/-!
Verification of the GoWebsockets in-memory PubSub broker (`main.go`).

The broker state (`PubSub`) holds a slice of clients, a slice of
subscriptions and a `sync.Mutex`.  We embed the mutex as a `Bool` field:
an operation that calls `mu.Lock()` returns `none` when the lock is
already held (in the source, the goroutine would block forever when the
holder is itself — the self-deadlock in `broadcast`), and otherwise runs
its body with the lock held and releases it on return.

Websocket connections are embedded as connection identifiers (`Nat`);
the network is a log of successful writes plus a set of connection ids
whose writes fail (`Net`).  `WriteMessage` appends to the log on success
and reports an error for a broken connection.

Go's `for index, sub := range s { if p(sub) { s = append(s[:index], s[index+1:]...) } }`
pattern used by `RemoveClient` and `Unsubscribe` mutates the slice's
backing array in place while the range clause keeps iterating over the
original header.  We model it exactly: `removeLoop` carries the backing
array (constant length), the current slice length and the range index;
`sliceDelete` performs the in-place shifted deletion, and the step
returns `none` (run-time panic `slice bounds out of range`) when
`index+1 > len(s)`, exactly as `s[index+1:]` does in Go.
-/

/-- Byte payloads (`[]byte`). -/
abbrev Bytes := List Nat

/-- A connected client: unique id plus its websocket connection,
embedded as a connection identifier. -/
structure Client where
  Id : String
  Connection : Nat
deriving DecidableEq

/-- A (topic, client) association.  The source stores a `*Client`;
the fields read through it are `Id` and `Connection`, so the embedding
stores the client value. -/
structure Subscription where
  Topic : String
  Client : Client
deriving DecidableEq

/-- The broker state: client slice, subscription slice, and the mutex. -/
structure PubSub where
  Clients : List Client
  Subscriptions : List Subscription
  mu : Bool
deriving DecidableEq

/-- The decoded wire envelope: `{action, topic, message}`. -/
structure Message where
  Action : String
  Topic : String
  Message : Bytes
deriving DecidableEq

/-- The network: log of successful writes `(connection id, payload)` in
send order, plus the set of connection ids whose writes fail. -/
structure Net where
  sent : List (Nat × Bytes)
  broken : List Nat
deriving DecidableEq

def PUBLISH : String := "publish"

def SUBSCRIBE : String := "subscribe"

def UNSUBSCRIBE : String := "unsubscribe"

/-- The zero value `&PubSub{}`: no clients, no subscriptions, mutex free. -/
def PubSub.empty : PubSub := ⟨[], [], false⟩

/-- `conn.WriteMessage(1, msg)`: appends to the send log, or reports an
error (`true`) for a broken connection. -/
def writeMessage (connId : Nat) (msg : Bytes) (net : Net) : Net × Bool :=
  if net.broken.contains connId then (net, true)
  else ({ net with sent := net.sent ++ [(connId, msg)] }, false)

/-- `func (client *Client) Send(message []byte) error`. -/
def Client.Send (client : Client) (message : Bytes) (net : Net) : Net × Bool :=
  writeMessage client.Connection message net

/-- String payloads such as the welcome message, as bytes. -/
def strBytes (s : String) : Bytes := s.toList.map Char.toNat

/-- The backing array after Go's in-place
`s = append(s[:index], s[index+1:]...)` on a slice of length `l`:
positions `index .. l-2` receive the old `index+1 .. l-1`, everything
else (including the stale tail from `l-1` on) is untouched. -/
def sliceDelete (arr : List α) (l index : Nat) : List α :=
  arr.take index ++ (arr.drop (index + 1)).take (l - 1 - index) ++ arr.drop (l - 1)

/-- One pass of `for index, sub := range s { if p(sub) { s = append(s[:index], s[index+1:]...) } }`.
`arr` is the backing array (the range clause iterates `arr` up to its
original length), `l` the current slice length, `index` the range index,
`fuel` the remaining iterations.  `none` is the run-time panic raised by
`s[index+1:]` when `index + 1 > l`. -/
def removeLoop (p : α → Bool) : Nat → List α → Nat → Nat → Option (List α × Nat)
  | 0, arr, l, _ => some (arr, l)
  | fuel + 1, arr, l, index =>
    match arr[index]? with
    | none => some (arr, l)
    | some sub =>
      if p sub then
        if index < l then removeLoop p fuel (sliceDelete arr l index) (l - 1) (index + 1)
        else none
      else removeLoop p fuel arr l (index + 1)

/-- The full remove-while-iterating pattern on a slice `s`: run the
range loop, then read back the resulting slice. -/
def goRemoveAll (p : α → Bool) (s : List α) : Option (List α) :=
  (removeLoop p s.length s s.length 0).map (fun r => r.1.take r.2)

/-- `func (ps *PubSub) AddClient(client Client) *PubSub`:
locks, appends the client, writes the welcome message (error ignored),
unlocks. -/
def PubSub.AddClient (ps : PubSub) (client : Client) (net : Net) :
    Option (PubSub × Net) :=
  if ps.mu then none
  else
    let clients := ps.Clients ++ [client]
    let payload := strBytes ("Hello Client ID" ++ client.Id)
    let net1 := (writeMessage client.Connection payload net).1
    some ({ ps with Clients := clients }, net1)

/-- `func (ps *PubSub) RemoveClient(client Client) *PubSub`:
locks, removes the client's subscriptions with the remove-while-iterating
pattern, then removes the client the same way, unlocks.  `none` when the
lock is already held (the caller blocks) or a loop panics. -/
def PubSub.RemoveClient (ps : PubSub) (client : Client) : Option PubSub :=
  if ps.mu then none
  else
    match goRemoveAll (fun sub => client.Id == sub.Client.Id) ps.Subscriptions with
    | none => none
    | some subs =>
      match goRemoveAll (fun cl => cl.Id == client.Id) ps.Clients with
      | none => none
      | some cls => some { ps with Clients := cls, Subscriptions := subs }

/-- `func (ps *PubSub) GetSubscriptions(topic string, client *Client) []Subscription`:
collects, in order, the subscriptions matching the topic (and the client
id when a client is given).  Takes no lock. -/
def PubSub.GetSubscriptions (ps : PubSub) (topic : String) (client : Option Client) :
    List Subscription :=
  ps.Subscriptions.filter (fun subscription =>
    match client with
    | some c => subscription.Client.Id == c.Id && subscription.Topic == topic
    | none => subscription.Topic == topic)

/-- `func (ps *PubSub) Subscribe(client *Client, topic string) *PubSub`:
no-op when a matching subscription already exists, otherwise appends a
new one.  Takes no lock. -/
def PubSub.Subscribe (ps : PubSub) (client : Client) (topic : String) : PubSub :=
  let clientSubs := ps.GetSubscriptions topic (some client)
  if clientSubs.length > 0 then ps
  else { ps with Subscriptions := ps.Subscriptions ++ [⟨topic, client⟩] }

/-- The send loop of `Publish`: sends to each subscriber in order; the
returned error of `Send` is discarded. -/
def publishLoop (subs : List Subscription) (message : Bytes) (net : Net) : Net :=
  match subs with
  | [] => net
  | sub :: rest => publishLoop rest message (sub.Client.Send message net).1

/-- `func (ps *PubSub) Publish(topic string, message []byte, excludeClient *Client)`:
looks up the topic's subscribers and sends to each; `excludeClient` is
never read; no registry mutation; takes no lock. -/
def PubSub.Publish (ps : PubSub) (topic : String) (message : Bytes)
    (excludeClient : Option Client) (net : Net) : PubSub × Net :=
  let subscriptions := ps.GetSubscriptions topic none
  (ps, publishLoop subscriptions message net)

/-- `func (ps *PubSub) Unsubscribe(client *Client, topic string) *PubSub`:
remove-while-iterating over the subscriptions matching (client id, topic).
Takes no lock. -/
def PubSub.Unsubscribe (ps : PubSub) (client : Client) (topic : String) :
    Option PubSub :=
  (goRemoveAll (fun sub => sub.Client.Id == client.Id && sub.Topic == topic)
      ps.Subscriptions).map
    (fun subs => { ps with Subscriptions := subs })

/-- The body of `broadcast`'s client loop, run with the lock held: write
to each client; on a write error call `RemoveClient`, which tries to
take the already-held lock — `none`, the self-deadlock. -/
def broadcastLoop (clients : List Client) (message : Bytes) (ps : PubSub) (net : Net) :
    Option (PubSub × Net) :=
  match clients with
  | [] => some (ps, net)
  | client :: rest =>
    let r := writeMessage client.Connection message net
    if r.2 then
      match ps.RemoveClient client with
      | none => none
      | some ps1 => broadcastLoop rest message ps1 r.1
    else broadcastLoop rest message ps r.1

/-- `func (ps *PubSub) broadcast(message []byte)`: locks, writes to every
client, removing a client whose write fails (via `RemoveClient`, which
self-deadlocks because the lock is held), unlocks. -/
def PubSub.broadcast (ps : PubSub) (message : Bytes) (net : Net) :
    Option (PubSub × Net) :=
  if ps.mu then none
  else
    let held : PubSub := { ps with mu := true }
    match broadcastLoop held.Clients message held net with
    | none => none
    | some (ps1, net1) => some ({ ps1 with mu := false }, net1)

/-- `func (ps *PubSub) HandleRecvdMessage(client Client, messageType int, payload []byte) *PubSub`:
decodes the payload (the external `json.Unmarshal` is the parameter
`decode`); on decode failure the message is dropped and the state
returned unchanged; otherwise routes on the action, ignoring unknown
actions. -/
def PubSub.HandleRecvdMessage (ps : PubSub) (decode : Bytes → Option Message)
    (client : Client) (messageType : Nat) (payload : Bytes) (net : Net) :
    Option (PubSub × Net) :=
  match decode payload with
  | none => some (ps, net)
  | some m =>
    if m.Action == PUBLISH then
      some (ps.Publish m.Topic m.Message none net)
    else if m.Action == SUBSCRIBE then
      some (ps.Subscribe client m.Topic, net)
    else if m.Action == UNSUBSCRIBE then
      (ps.Unsubscribe client m.Topic).map (fun p => (p, net))
    else some (ps, net)

/-! ## Helper lemmas about the send loop -/

theorem publishLoop_broken (subs : List Subscription) (message : Bytes) (net : Net) :
    (publishLoop subs message net).broken = net.broken := by
  induction subs generalizing net with
  | nil => rfl
  | cons sub rest ih =>
    simp only [publishLoop, Client.Send, writeMessage]
    by_cases h : sub.Client.Connection ∈ net.broken
    · simp [h, ih]
    · simp [h, ih]

theorem publishLoop_sent (subs : List Subscription) (message : Bytes) (net : Net) :
    (publishLoop subs message net).sent =
      net.sent ++
        (subs.filter (fun s => !net.broken.contains s.Client.Connection)).map
          (fun s => (s.Client.Connection, message)) := by
  induction subs generalizing net with
  | nil => simp [publishLoop]
  | cons sub rest ih =>
    simp only [publishLoop, Client.Send, writeMessage]
    by_cases h : sub.Client.Connection ∈ net.broken
    · simp [h, ih]
    · simp [h, List.filter_cons, ih]

/-! ## Helper lemmas about the remove-while-iterating loop -/

theorem removeLoop_oob (p : α → Bool) (fuel : Nat) (arr : List α) (l index : Nat)
    (h : arr[index]? = none) : removeLoop p fuel arr l index = some (arr, l) := by
  cases fuel with
  | zero => rfl
  | succ n => simp [removeLoop, h]

theorem removeLoop_no_match (p : α → Bool) :
    ∀ (fuel : Nat) (arr : List α) (l index : Nat),
    (∀ i x, index ≤ i → arr[i]? = some x → p x = false) →
    removeLoop p fuel arr l index = some (arr, l) := by
  intro fuel
  induction fuel with
  | zero => intro arr l index _; rfl
  | succ n ih =>
    intro arr l index h
    cases harr : arr[index]? with
    | none => simp [removeLoop, harr]
    | some sub =>
      have hp : p sub = false := h index sub le_rfl harr
      simp only [removeLoop, harr, hp, Bool.false_eq_true, if_false]
      exact ih arr l (index + 1) (fun i x hi hx => h i x (Nat.le_of_succ_le hi) hx)

theorem goRemoveAll_no_match (p : α → Bool) (s : List α)
    (h : ∀ x ∈ s, p x = false) : goRemoveAll p s = some s := by
  rw [goRemoveAll, removeLoop_no_match]
  · simp
  · intro i x _ hx
    exact h x (List.getElem?_mem hx)

theorem sliceDelete_last (arr : List α) (l : Nat) :
    sliceDelete arr l (l - 1) = arr := by
  simp [sliceDelete, Nat.sub_self]

theorem removeLoop_match_end (p : α → Bool) :
    ∀ (fuel index : Nat) (arr : List α),
    (∀ i x, index ≤ i → i + 1 < arr.length → arr[i]? = some x → p x = false) →
    (∀ x, arr[arr.length - 1]? = some x → p x = true) →
    index < arr.length →
    arr.length ≤ index + fuel →
    removeLoop p fuel arr arr.length index = some (arr, arr.length - 1) := by
  intro fuel
  induction fuel with
  | zero => intro index arr _ _ hlt hle; omega
  | succ n ih =>
    intro index arr hpre hlast hlt hle
    have hx : arr[index]? = some (arr.get ⟨index, hlt⟩) := List.getElem?_eq_getElem hlt
    by_cases hend : index + 1 < arr.length
    · have hp : p (arr.get ⟨index, hlt⟩) = false := hpre index _ le_rfl hend hx
      simp only [removeLoop, hx, hp, Bool.false_eq_true, if_false]
      exact ih (index + 1) arr (fun i y hi => hpre i y (by omega)) hlast hend (by omega)
    · have hidx : index = arr.length - 1 := by omega
      have hp : p (arr.get ⟨index, hlt⟩) = true := hlast _ (hidx ▸ hx)
      simp only [removeLoop, hx, hp, if_true, if_pos hlt]
      rw [hidx, sliceDelete_last]
      apply removeLoop_oob
      have h1 : arr.length - 1 + 1 = arr.length := by omega
      rw [h1]
      simp

theorem goRemoveAll_match_last (p : α → Bool) (xs : List α) (c : α)
    (hxs : ∀ x ∈ xs, p x = false) (hc : p c = true) :
    goRemoveAll p (xs ++ [c]) = some xs := by
  rw [goRemoveAll, removeLoop_match_end]
  · simp [List.take_left]
  · intro i x hi hilen hx
    have hilt : i < xs.length := by simp at hilen; omega
    rw [List.getElem?_append_left hilt] at hx
    exact hxs x (List.getElem?_mem hx)
  · intro x hx
    have h1 : (xs ++ [c]).length - 1 = xs.length := by simp
    rw [h1, List.getElem?_append_right le_rfl] at hx
    simp at hx
    rw [← hx]
    exact hc
  · simp
  · simp

theorem sliceDelete_length (arr : List α) (l index : Nat)
    (hil : index < l) (hl : l ≤ arr.length) :
    (sliceDelete arr l index).length = arr.length := by
  simp [sliceDelete]
  omega

theorem sliceDelete_take_sublist (arr : List α) (l index : Nat)
    (hil : index < l) (hl : l ≤ arr.length) :
    List.Sublist ((sliceDelete arr l index).take (l - 1)) (arr.take l) := by
  have hidx : index < arr.length := lt_of_lt_of_le hil hl
  have h1 : (arr.take index ++ (arr.drop (index + 1)).take (l - 1 - index)).length = l - 1 := by
    simp
    omega
  have h2 : (sliceDelete arr l index).take (l - 1) =
      arr.take index ++ (arr.drop (index + 1)).take (l - 1 - index) := by
    rw [sliceDelete]
    exact List.take_left' h1
  have h3 : arr.take l =
      arr.take index ++ arr.get ⟨index, hidx⟩ :: (arr.drop (index + 1)).take (l - 1 - index) := by
    conv_lhs => rw [show l = index + (l - 1 - index + 1) by omega, List.take_add]
    congr 1
    rw [List.drop_eq_getElem_cons hidx]
    rfl
  rw [h2, h3]
  exact List.Sublist.append_left (List.sublist_cons_self _ _) _

theorem removeLoop_sublist (p : α → Bool) :
    ∀ (fuel : Nat) (arr : List α) (l index : Nat) (arr2 : List α) (l2 : Nat),
    l ≤ arr.length →
    removeLoop p fuel arr l index = some (arr2, l2) →
    List.Sublist (arr2.take l2) (arr.take l) := by
  intro fuel
  induction fuel with
  | zero =>
    intro arr l index arr2 l2 hl h
    simp only [removeLoop, Option.some.injEq, Prod.mk.injEq] at h
    rw [← h.1, ← h.2]
  | succ n ih =>
    intro arr l index arr2 l2 hl h
    cases harr : arr[index]? with
    | none =>
      simp only [removeLoop, harr, Option.some.injEq, Prod.mk.injEq] at h
      rw [← h.1, ← h.2]
    | some sub =>
      simp only [removeLoop, harr] at h
      by_cases hp : p sub
      · rw [if_pos hp] at h
        by_cases hil : index < l
        · rw [if_pos hil] at h
          have hlen : (sliceDelete arr l index).length = arr.length :=
            sliceDelete_length arr l index hil hl
          have hrec := ih (sliceDelete arr l index) (l - 1) (index + 1) arr2 l2 (by omega) h
          exact hrec.trans (sliceDelete_take_sublist arr l index hil hl)
        · rw [if_neg hil] at h
          exact absurd h (by simp)
      · rw [if_neg hp] at h
        exact ih arr l (index + 1) arr2 l2 hl h

theorem goRemoveAll_sublist (p : α → Bool) (s s2 : List α)
    (h : goRemoveAll p s = some s2) : List.Sublist s2 s := by
  rw [goRemoveAll] at h
  cases hr : removeLoop p s.length s s.length 0 with
  | none => rw [hr] at h; exact absurd h (by simp)
  | some r =>
    rw [hr, Option.map_some'] at h
    have hsub := removeLoop_sublist p s.length s s.length 0 r.1 r.2 le_rfl (by rw [hr])
    rw [List.take_length] at hsub
    have h1 : r.1.take r.2 = s2 := by injection h
    rw [← h1]
    exact hsub

/-! ## Subscription-key uniqueness -/

/-- The (topic, client id) keys of a subscription slice. -/
def subKeys (subs : List Subscription) : List (String × String) :=
  subs.map (fun s => (s.Topic, s.Client.Id))

/-- No two subscription entries share a (topic, client id) key. -/
def PubSub.NoDupSubs (ps : PubSub) : Prop := (subKeys ps.Subscriptions).Nodup

theorem AddClient_subscriptions (ps ps1 : PubSub) (c : Client) (net net1 : Net)
    (h : ps.AddClient c net = some (ps1, net1)) : ps1.Subscriptions = ps.Subscriptions := by
  cases hmu : ps.mu with
  | true => simp [PubSub.AddClient, hmu] at h
  | false =>
    simp only [PubSub.AddClient, hmu, Bool.false_eq_true, if_false, Option.some.injEq,
      Prod.mk.injEq] at h
    rw [← h.1]

theorem RemoveClient_subs_sublist (ps ps1 : PubSub) (c : Client)
    (h : ps.RemoveClient c = some ps1) :
    List.Sublist ps1.Subscriptions ps.Subscriptions := by
  cases hmu : ps.mu with
  | true => simp [PubSub.RemoveClient, hmu] at h
  | false =>
    simp only [PubSub.RemoveClient, hmu, Bool.false_eq_true, if_false] at h
    cases hsubs : goRemoveAll (fun sub => c.Id == sub.Client.Id) ps.Subscriptions with
    | none => rw [hsubs] at h; exact absurd h (by simp)
    | some subs =>
      rw [hsubs] at h
      cases hcls : goRemoveAll (fun cl => cl.Id == c.Id) ps.Clients with
      | none => rw [hcls] at h; exact absurd h (by simp)
      | some cls =>
        rw [hcls] at h
        simp only [Option.some.injEq] at h
        rw [← h]
        exact goRemoveAll_sublist _ _ _ hsubs

theorem Unsubscribe_subs_sublist (ps ps1 : PubSub) (c : Client) (t : String)
    (h : ps.Unsubscribe c t = some ps1) :
    List.Sublist ps1.Subscriptions ps.Subscriptions := by
  rw [PubSub.Unsubscribe] at h
  cases hsubs : goRemoveAll (fun sub => sub.Client.Id == c.Id && sub.Topic == t)
      ps.Subscriptions with
  | none => rw [hsubs] at h; exact absurd h (by simp)
  | some subs =>
    rw [hsubs, Option.map_some'] at h
    simp only [Option.some.injEq] at h
    rw [← h]
    exact goRemoveAll_sublist _ _ _ hsubs

theorem Publish_fst (ps : PubSub) (t : String) (m : Bytes) (e : Option Client) (net : Net) :
    (ps.Publish t m e net).1 = ps := rfl

theorem Subscribe_noDup (ps : PubSub) (c : Client) (t : String)
    (h : ps.NoDupSubs) : (ps.Subscribe c t).NoDupSubs := by
  rw [PubSub.Subscribe]
  by_cases hlen : (ps.GetSubscriptions t (some c)).length > 0
  · simp only [hlen, if_true]
    exact h
  · simp only [hlen, if_false]
    have hempty : ps.GetSubscriptions t (some c) = [] :=
      List.length_eq_zero.mp (by omega)
    rw [PubSub.GetSubscriptions] at hempty
    have hnone := List.filter_eq_nil_iff.mp hempty
    rw [PubSub.NoDupSubs, subKeys, List.map_append]
    rw [List.nodup_append]
    refine ⟨h, by simp, ?_⟩
    intro k hk hk1
    simp only [List.map_cons, List.map_nil, List.mem_singleton] at hk1
    simp only [List.mem_map] at hk
    obtain ⟨s, hs, hks⟩ := hk
    have := hnone s hs
    rw [hk1] at hks
    have h1 : s.Topic = t := congrArg Prod.fst hks
    have h2 : s.Client.Id = c.Id := congrArg Prod.snd hks
    simp [h1, h2] at this

theorem NoDupSubs_of_sublist (subs1 subs2 : List Subscription) (ps1 ps2 : PubSub)
    (h1 : ps1.Subscriptions = subs1) (h2 : ps2.Subscriptions = subs2)
    (hsub : List.Sublist subs1 subs2) (hnd : ps2.NoDupSubs) : ps1.NoDupSubs := by
  rw [PubSub.NoDupSubs, h1]
  rw [PubSub.NoDupSubs, h2] at hnd
  exact List.Nodup.sublist (List.Sublist.map _ hsub) hnd

theorem HandleRecvdMessage_noDup (ps ps1 : PubSub) (decode : Bytes → Option Message)
    (c : Client) (mt : Nat) (pl : Bytes) (net net1 : Net)
    (h : ps.HandleRecvdMessage decode c mt pl net = some (ps1, net1))
    (hnd : ps.NoDupSubs) : ps1.NoDupSubs := by
  rw [PubSub.HandleRecvdMessage] at h
  cases hdec : decode pl with
  | none =>
    simp only [hdec, Option.some.injEq, Prod.mk.injEq] at h
    rw [← h.1]
    exact hnd
  | some m =>
    simp only [hdec] at h
    by_cases hpub : m.Action == PUBLISH
    · rw [if_pos hpub] at h
      simp only [Option.some.injEq] at h
      have h1 : ps = ps1 := congrArg Prod.fst h
      rw [← h1]
      exact hnd
    · rw [if_neg hpub] at h
      by_cases hsubsc : m.Action == SUBSCRIBE
      · rw [if_pos hsubsc] at h
        simp only [Option.some.injEq, Prod.mk.injEq] at h
        rw [← h.1]
        exact Subscribe_noDup ps c m.Topic hnd
      · rw [if_neg hsubsc] at h
        by_cases huns : m.Action == UNSUBSCRIBE
        · rw [if_pos huns] at h
          cases hq : ps.Unsubscribe c m.Topic with
          | none => rw [hq] at h; exact absurd h (by simp)
          | some q =>
            rw [hq, Option.map_some'] at h
            simp only [Option.some.injEq, Prod.mk.injEq] at h
            rw [← h.1]
            exact NoDupSubs_of_sublist q.Subscriptions ps.Subscriptions q ps rfl rfl
              (Unsubscribe_subs_sublist ps q c m.Topic hq) hnd
        · rw [if_neg huns] at h
          simp only [Option.some.injEq, Prod.mk.injEq] at h
          rw [← h.1]
          exact hnd

/-- The broker states reachable from the zero state by the engine's
operations. -/
inductive Reachable : PubSub → Prop
  | empty : Reachable PubSub.empty
  | addClient (ps ps1 : PubSub) (c : Client) (net net1 : Net) :
      Reachable ps → ps.AddClient c net = some (ps1, net1) → Reachable ps1
  | removeClient (ps ps1 : PubSub) (c : Client) :
      Reachable ps → ps.RemoveClient c = some ps1 → Reachable ps1
  | subscribe (ps : PubSub) (c : Client) (t : String) :
      Reachable ps → Reachable (ps.Subscribe c t)
  | unsubscribe (ps ps1 : PubSub) (c : Client) (t : String) :
      Reachable ps → ps.Unsubscribe c t = some ps1 → Reachable ps1
  | publish (ps : PubSub) (t : String) (m : Bytes) (e : Option Client) (net : Net) :
      Reachable ps → Reachable (ps.Publish t m e net).1
  | dispatch (ps ps1 : PubSub) (decode : Bytes → Option Message) (c : Client)
      (mt : Nat) (pl : Bytes) (net net1 : Net) :
      Reachable ps → ps.HandleRecvdMessage decode c mt pl net = some (ps1, net1) →
      Reachable ps1

theorem GetSubscriptions_some (ps : PubSub) (topic : String) (c : Client) :
    ps.GetSubscriptions topic (some c) =
      ps.Subscriptions.filter (fun s => s.Client.Id == c.Id && s.Topic == topic) := rfl

theorem GetSubscriptions_none (ps : PubSub) (topic : String) :
    ps.GetSubscriptions topic none =
      ps.Subscriptions.filter (fun s => s.Topic == topic) := rfl

/-! ## The claims -/

/-- Claim C8: in every state reachable from the empty broker state via
AddClient, RemoveClient, Subscribe, Unsubscribe, Publish and Dispatch,
no two Subscription entries share the same (topic, client id). -/
theorem C8_subscription_key_unique (ps : PubSub) (h : Reachable ps) : ps.NoDupSubs := by
  induction h with
  | empty => simp [PubSub.NoDupSubs, PubSub.empty, subKeys]
  | addClient ps ps1 c net net1 _ hstep ih =>
    rw [PubSub.NoDupSubs, AddClient_subscriptions ps ps1 c net net1 hstep]
    exact ih
  | removeClient ps ps1 c _ hstep ih =>
    exact NoDupSubs_of_sublist ps1.Subscriptions ps.Subscriptions ps1 ps rfl rfl
      (RemoveClient_subs_sublist ps ps1 c hstep) ih
  | subscribe ps c t _ ih => exact Subscribe_noDup ps c t ih
  | unsubscribe ps ps1 c t _ hstep ih =>
    exact NoDupSubs_of_sublist ps1.Subscriptions ps.Subscriptions ps1 ps rfl rfl
      (Unsubscribe_subs_sublist ps ps1 c t hstep) ih
  | publish ps t m e net _ ih =>
    rw [show (PubSub.Publish ps t m e net).1 = ps from rfl]
    exact ih
  | dispatch ps ps1 decode c mt pl net net1 _ hstep ih =>
    exact HandleRecvdMessage_noDup ps ps1 decode c mt pl net net1 hstep ih

/-- Witness for C8: a concrete reachable state (empty, then one
Subscribe) satisfies the invariant. -/
theorem C8_subscription_key_unique_witness :
    Reachable (PubSub.empty.Subscribe ⟨"A", 0⟩ "news") ∧
    (PubSub.empty.Subscribe ⟨"A", 0⟩ "news").NoDupSubs :=
  ⟨Reachable.subscribe PubSub.empty ⟨"A", 0⟩ "news" Reachable.empty,
   C8_subscription_key_unique _ (Reachable.subscribe PubSub.empty ⟨"A", 0⟩ "news" Reachable.empty)⟩

/-- Concrete client A on connection 0, used as witness material. -/
def clientA : Client := ⟨"A", 0⟩

/-- Concrete client B on connection 1. -/
def clientB : Client := ⟨"B", 1⟩

/-- A network on which client A's connection is broken. -/
def netAbroken : Net := ⟨[], [0]⟩

/-- A fully healthy network. -/
def netFine : Net := ⟨[], []⟩

/-- The payload "hello". -/
def msgHello : Bytes := [104, 101, 108, 108, 111]

/-- Broker with A and B both subscribed to "x". -/
def psAB : PubSub := ⟨[clientA, clientB], [⟨"x", clientA⟩, ⟨"x", clientB⟩], false⟩

/-- Claim C1 (amended): when a send inside Publish fails, delivery still
proceeds to every remaining live subscriber in order, but the failing
client is NOT removed — Publish performs no registry mutation at all.
The send log gains exactly the messages to the non-broken subscribers of
the topic, in subscription order. -/
theorem C1_publish_send_failure_no_removal (ps : PubSub) (topic : String) (msg : Bytes)
    (e : Option Client) (net : Net) :
    (ps.Publish topic msg e net).1 = ps ∧
    (ps.Publish topic msg e net).2.sent =
      net.sent ++ ((ps.GetSubscriptions topic none).filter
          (fun s => !net.broken.contains s.Client.Connection)).map
        (fun s => (s.Client.Connection, msg)) :=
  ⟨rfl, publishLoop_sent (ps.GetSubscriptions topic none) msg net⟩

/-- Claim C1 (counterexample): clients A (broken connection) and B are
both subscribed to "x".  During `Publish("x", hello)` the send to A
fails; B is still delivered, but A remains in the registry with all its
subscriptions — the claimed removal does not happen. -/
theorem C1_counterexample :
    netAbroken.broken.contains clientA.Connection = true ∧
    (psAB.Publish "x" msgHello none netAbroken).2.sent = [(clientB.Connection, msgHello)] ∧
    (psAB.Publish "x" msgHello none netAbroken).1.Clients = [clientA, clientB] ∧
    (psAB.Publish "x" msgHello none netAbroken).1.Subscriptions =
      [⟨"x", clientA⟩, ⟨"x", clientB⟩] := by
  refine ⟨rfl, by decide, rfl, rfl⟩

/-- Broker with a single client A holding two subscriptions. -/
def psAxy : PubSub := ⟨[clientA], [⟨"x", clientA⟩, ⟨"y", clientA⟩], false⟩

/-- Broker where A holds two adjacent subscriptions followed by one of B. -/
def psAxyBz : PubSub := ⟨[clientA, clientB], [⟨"x", clientA⟩, ⟨"y", clientA⟩, ⟨"z", clientB⟩], false⟩

/-- Claim C2 (failing input): RemoveClient on a client with two
subscriptions panics (`slice bounds out of range`, modelled as `none`)
because the removal loop mutates the slice it is ranging over; in the
arrangement x@A, y@A, z@B it instead terminates but leaves A's second
subscription dangling in the index. -/
theorem C2_removeClient_failing_input :
    psAxy.RemoveClient clientA = none ∧
    psAxyBz.RemoveClient clientA = some ⟨[clientB], [⟨"y", clientA⟩, ⟨"z", clientB⟩], false⟩ := by
  decide

/-- Broker with clients A and B connected and no subscriptions. -/
def psABnosub : PubSub := ⟨[clientA, clientB], [], false⟩

/-- Claim C7 (failing input): broadcast to A (broken) and B: the write
to A fails, and the error path calls RemoveClient while the broadcast
still holds the broker mutex — `RemoveClient`'s `Lock()` never returns
(modelled as `none`): the client is not removed and B is never reached. -/
theorem C7_broadcast_send_failure_deadlocks :
    netAbroken.broken.contains clientA.Connection = true ∧
    psABnosub.broadcast msgHello netAbroken = none := by
  decide

/-- Claim C3: Publish sends the message byte-for-byte unmodified to
every client currently subscribed to the topic and to no other, in
subscription-insertion order, and performs no state change; with no
subscribers the send log is unchanged.  (Hypothesis: the subscribers'
connections are healthy, so every send succeeds.) -/
theorem C3_publish_exact_delivery (ps : PubSub) (topic : String) (msg : Bytes)
    (e : Option Client) (net : Net)
    (hok : ∀ s ∈ ps.GetSubscriptions topic none,
      net.broken.contains s.Client.Connection = false) :
    (ps.Publish topic msg e net).1 = ps ∧
    (ps.Publish topic msg e net).2.sent =
      net.sent ++ (ps.GetSubscriptions topic none).map
        (fun s => (s.Client.Connection, msg)) := by
  refine ⟨rfl, ?_⟩
  have hfil : (ps.GetSubscriptions topic none).filter
      (fun s => !net.broken.contains s.Client.Connection) =
      ps.GetSubscriptions topic none :=
    List.filter_eq_self.mpr (fun s hs => by rw [hok s hs]; rfl)
  have h1 := publishLoop_sent (ps.GetSubscriptions topic none) msg net
  rw [hfil] at h1
  exact h1

/-- Witness for C3 at a concrete broker. -/
theorem C3_publish_exact_delivery_witness :
    (∀ s ∈ psAB.GetSubscriptions "x" none,
      netFine.broken.contains s.Client.Connection = false) ∧
    ((psAB.Publish "x" msgHello none netFine).1 = psAB ∧
     (psAB.Publish "x" msgHello none netFine).2.sent =
       netFine.sent ++ (psAB.GetSubscriptions "x" none).map
         (fun s => (s.Client.Connection, msgHello))) :=
  ⟨by decide, C3_publish_exact_delivery psAB "x" msgHello none netFine (by decide)⟩

/-- Claim C4: AddClient(C) followed by RemoveClient(C) restores the
client registry and the subscription index exactly.  (Hypotheses: the
lock is free and C's id is fresh — the source guarantees id uniqueness
upstream via the uuid provider.) -/
theorem C4_add_remove_round_trip (ps : PubSub) (client : Client) (net : Net)
    (hmu : ps.mu = false)
    (hc : ∀ c ∈ ps.Clients, (c.Id == client.Id) = false)
    (hs : ∀ s ∈ ps.Subscriptions, (client.Id == s.Client.Id) = false) :
    ∃ ps1 net1, ps.AddClient client net = some (ps1, net1) ∧
      ps1.RemoveClient client = some ps := by
  obtain ⟨Cs, Ss, mu0⟩ := ps
  have hmu0 : mu0 = false := hmu
  subst hmu0
  refine ⟨⟨Cs ++ [client], Ss, false⟩, _, rfl, ?_⟩
  rw [PubSub.RemoveClient]
  have hsubs : goRemoveAll (fun sub => client.Id == sub.Client.Id) Ss = some Ss :=
    goRemoveAll_no_match _ _ hs
  have hcls : goRemoveAll (fun cl => cl.Id == client.Id) (Cs ++ [client]) = some Cs :=
    goRemoveAll_match_last _ Cs client hc (by simp)
  simp [hsubs, hcls]

/-- Witness for C4: adding then removing a fresh client on the empty
broker restores the empty broker. -/
theorem C4_add_remove_round_trip_witness :
    PubSub.empty.mu = false ∧
    (∀ c ∈ PubSub.empty.Clients, (c.Id == clientA.Id) = false) ∧
    (∀ s ∈ PubSub.empty.Subscriptions, (clientA.Id == s.Client.Id) = false) ∧
    (∃ ps1 net1, PubSub.empty.AddClient clientA netFine = some (ps1, net1) ∧
      ps1.RemoveClient clientA = some PubSub.empty) :=
  ⟨rfl, by decide, by decide,
   C4_add_remove_round_trip PubSub.empty clientA netFine rfl (by decide) (by decide)⟩

/-- Claim C5: Subscribe twice for the same (client, topic) pair leaves
exactly one matching Subscription entry, and the second call is a
no-op.  (Hypothesis: the pair holds at most one entry beforehand, which
is an invariant of reachable states, C8.) -/
theorem C5_subscribe_idempotent (ps : PubSub) (client : Client) (topic : String)
    (h : (ps.GetSubscriptions topic (some client)).length ≤ 1) :
    (ps.Subscribe client topic).Subscribe client topic = ps.Subscribe client topic ∧
    (((ps.Subscribe client topic).Subscribe client topic).GetSubscriptions
        topic (some client)).length = 1 := by
  by_cases h0 : (ps.GetSubscriptions topic (some client)).length > 0
  · have hs1 : ps.Subscribe client topic = ps := by
      rw [PubSub.Subscribe, if_pos h0]
    rw [hs1, hs1]
    exact ⟨rfl, by omega⟩
  · have hnil : ps.GetSubscriptions topic (some client) = [] :=
      List.length_eq_zero.mp (by omega)
    rw [GetSubscriptions_some] at hnil
    have hs1 : ps.Subscribe client topic =
        { ps with Subscriptions := ps.Subscriptions ++ [⟨topic, client⟩] } := by
      rw [PubSub.Subscribe, if_neg h0]
    have hget : ({ ps with Subscriptions := ps.Subscriptions ++ [⟨topic, client⟩] } :
        PubSub).GetSubscriptions topic (some client) = [⟨topic, client⟩] := by
      rw [GetSubscriptions_some]
      show (ps.Subscriptions ++ [(⟨topic, client⟩ : Subscription)]).filter
        (fun s : Subscription => s.Client.Id == client.Id && s.Topic == topic) =
        [(⟨topic, client⟩ : Subscription)]
      rw [List.filter_append, hnil]
      simp
    have hs2 : ({ ps with Subscriptions := ps.Subscriptions ++ [⟨topic, client⟩] } :
        PubSub).Subscribe client topic =
        { ps with Subscriptions := ps.Subscriptions ++ [⟨topic, client⟩] } := by
      rw [PubSub.Subscribe]
      rw [if_pos (by rw [hget]; simp)]
    rw [hs1, hs2]
    exact ⟨rfl, by rw [hget]; rfl⟩

/-- Witness for C5 on the empty broker. -/
theorem C5_subscribe_idempotent_witness :
    (PubSub.empty.GetSubscriptions "news" (some clientA)).length ≤ 1 ∧
    ((PubSub.empty.Subscribe clientA "news").Subscribe clientA "news" =
       PubSub.empty.Subscribe clientA "news" ∧
     (((PubSub.empty.Subscribe clientA "news").Subscribe clientA "news").GetSubscriptions
        "news" (some clientA)).length = 1) :=
  ⟨by decide, C5_subscribe_idempotent PubSub.empty clientA "news" (by decide)⟩

/-- Claim C6: a payload the codec rejects is dropped by Dispatch: the
broker state is unchanged, no message is sent to any client, and the
handler returns normally (the connection stays open). -/
theorem C6_decode_failure_drops (ps : PubSub) (decode : Bytes → Option Message)
    (client : Client) (mt : Nat) (payload : Bytes) (net : Net)
    (hdec : decode payload = none) :
    ps.HandleRecvdMessage decode client mt payload net = some (ps, net) := by
  simp [PubSub.HandleRecvdMessage, hdec]

/-- Witness for C6 with a concrete always-failing codec and payload. -/
theorem C6_decode_failure_drops_witness :
    (fun _ : Bytes => (none : Option Message)) [1, 2, 3] = none ∧
    psAB.HandleRecvdMessage (fun _ => none) clientA 1 [1, 2, 3] netFine =
      some (psAB, netFine) :=
  ⟨rfl, C6_decode_failure_drops psAB (fun _ => none) clientA 1 [1, 2, 3] netFine rfl⟩

/-- A broker state whose mutex is currently held. -/
def psHeldA : PubSub := ⟨[clientA], [], true⟩

/-- Claim C9 (counterexample): while the broker mutex is held,
Subscribe still runs to completion and mutates the subscription index —
it never acquires the lock — whereas a genuinely lock-guarded operation
such as AddClient cannot proceed in the same state. -/
theorem C9_counterexample :
    psHeldA.mu = true ∧
    psHeldA.Subscribe clientA "x" = ⟨[clientA], [⟨"x", clientA⟩], true⟩ ∧
    psHeldA.AddClient clientB netFine = none := by
  decide

/-- Claim C9 (amended): AddClient, RemoveClient and broadcast execute
under the broker mutex (they block while it is held); Subscribe,
Unsubscribe and Publish (including its subscriber lookup) never touch
the lock: with the mutex held they still run, and their results are the
same as from the unlocked state. -/
theorem C9_lock_discipline (ps : PubSub) (c : Client) (t : String) (m : Bytes)
    (e : Option Client) (net : Net) (hmu : ps.mu = true) :
    ps.AddClient c net = none ∧
    ps.RemoveClient c = none ∧
    ps.broadcast m net = none ∧
    (ps.Subscribe c t).Subscriptions =
      (({ ps with mu := false } : PubSub).Subscribe c t).Subscriptions ∧
    ps.Unsubscribe c t =
      (({ ps with mu := false } : PubSub).Unsubscribe c t).map
        (fun q => { q with mu := true }) ∧
    (ps.Publish t m e net).2 = (({ ps with mu := false } : PubSub).Publish t m e net).2 ∧
    (ps.Publish t m e net).1 = ps := by
  refine ⟨by simp [PubSub.AddClient, hmu], by simp [PubSub.RemoveClient, hmu],
    by simp [PubSub.broadcast, hmu], ?_, ?_, rfl, rfl⟩
  · by_cases h0 : (ps.GetSubscriptions t (some c)).length > 0
    · have h0F : (({ ps with mu := false } : PubSub).GetSubscriptions t (some c)).length > 0 := h0
      rw [PubSub.Subscribe, if_pos h0, PubSub.Subscribe, if_pos h0F]
    · have h0F : ¬(({ ps with mu := false } : PubSub).GetSubscriptions t (some c)).length > 0 := h0
      rw [PubSub.Subscribe, if_neg h0, PubSub.Subscribe, if_neg h0F]
  · rw [PubSub.Unsubscribe, PubSub.Unsubscribe]
    cases hr : goRemoveAll (fun sub => sub.Client.Id == c.Id && sub.Topic == t)
        ps.Subscriptions with
    | none => rfl
    | some subs =>
      simp only [Option.map_some', Option.some.injEq]
      rw [hmu]

/-- Witness for C9 at a concrete locked broker. -/
theorem C9_lock_discipline_witness :
    psHeldA.mu = true ∧
    (psHeldA.AddClient clientB netFine = none ∧
     psHeldA.RemoveClient clientB = none ∧
     psHeldA.broadcast msgHello netFine = none ∧
     (psHeldA.Subscribe clientB "x").Subscriptions =
       (({ psHeldA with mu := false } : PubSub).Subscribe clientB "x").Subscriptions ∧
     psHeldA.Unsubscribe clientB "x" =
       (({ psHeldA with mu := false } : PubSub).Unsubscribe clientB "x").map
         (fun q => { q with mu := true }) ∧
     (psHeldA.Publish "x" msgHello none netFine).2 =
       (({ psHeldA with mu := false } : PubSub).Publish "x" msgHello none netFine).2 ∧
     (psHeldA.Publish "x" msgHello none netFine).1 = psHeldA) :=
  ⟨rfl, C9_lock_discipline psHeldA clientB "x" msgHello none netFine rfl⟩

/-- Claim C10: the `excludeClient` argument of Publish is ignored — the
sends performed and the resulting state are identical for every value of
the argument, including `none` — and a publisher subscribed to the topic
(with a healthy connection) receives its own message even when passed as
the exclusion. -/
theorem C10_excludeClient_ignored (ps : PubSub) (topic : String) (msg : Bytes)
    (net : Net) (e1 e2 : Option Client) (pub : Client)
    (hsub : (⟨topic, pub⟩ : Subscription) ∈ ps.Subscriptions)
    (hok : net.broken.contains pub.Connection = false) :
    ps.Publish topic msg e1 net = ps.Publish topic msg e2 net ∧
    (pub.Connection, msg) ∈ (ps.Publish topic msg (some pub) net).2.sent := by
  refine ⟨rfl, ?_⟩
  show (pub.Connection, msg) ∈ (publishLoop (ps.GetSubscriptions topic none) msg net).sent
  rw [publishLoop_sent]
  apply List.mem_append_right
  apply List.mem_map.mpr
  refine ⟨⟨topic, pub⟩, ?_, rfl⟩
  apply List.mem_filter.mpr
  refine ⟨?_, by rw [hok]; rfl⟩
  rw [GetSubscriptions_none]
  exact List.mem_filter.mpr ⟨hsub, by simp⟩

/-- Witness for C10: A publishes to "x" while subscribed and excluded;
A still receives the message, and the exclusion argument is irrelevant. -/
theorem C10_excludeClient_ignored_witness :
    ((⟨"x", clientA⟩ : Subscription) ∈ psAB.Subscriptions ∧
     netFine.broken.contains clientA.Connection = false) ∧
    (psAB.Publish "x" msgHello (some clientA) netFine =
       psAB.Publish "x" msgHello none netFine ∧
     (clientA.Connection, msgHello) ∈
       (psAB.Publish "x" msgHello (some clientA) netFine).2.sent) :=
  ⟨⟨by decide, rfl⟩,
   C10_excludeClient_ignored psAB "x" msgHello netFine (some clientA) none clientA
     (by decide) rfl⟩
